import Mathlib

/-!
Shallow embedding of the StarRocks nested-loop-join probe operator
(`be/src/exec/pipeline/crossjoin/nljoin_probe_operator.cpp`).

Columns are modelled as lists of cells (`Option Int`, `none` standing for SQL
NULL) together with a nullability flag; a chunk is the list of its columns,
indexed by slot position in `_col_types` order (the first `probe_column_count`
slots are probe-side, the rest build-side).  The external predicate evaluator
(`eval_conjuncts_and_in_filters` / `eval_conjuncts`) is out of scope in the
source and is modelled as a fallible function producing a boolean filter
aligned with the chunk's rows; compaction of the chunk by that filter is the
evaluator's contract.  Loops of the source are compiled to structural
recursion over an explicit fuel that equals the number of iterations the
source's loop condition allows.
-/

set_option maxHeartbeats 1000000

namespace NLJoin

/-- A cell of a column; `none` models SQL NULL. -/
abbrev Cell := Option Int

/-- A column: nullability flag plus cell data (`vectorized::Column`). -/
structure Column where
  nullable : Bool
  data : List Cell
deriving DecidableEq

instance : Inhabited Column := ⟨⟨false, []⟩⟩

/-- A chunk is the list of its columns (`vectorized::Chunk`), one entry per
slot of `_col_types`. -/
abbrev Chunk := List Column

/-- `Chunk::num_rows()`: the row count of the first column (0 for a chunk with
no columns). -/
def numRows (c : Chunk) : Nat :=
  match c with
  | [] => 0
  | col :: _ => col.data.length

/-- The cell data of column `i` of a chunk (empty when out of range). -/
def colDataAt (c : Chunk) (i : Nat) : List Cell := (c.getD i default).data

/-- The join kinds of `TJoinOp` relevant to this operator. -/
inductive JoinOp where
  | innerJoin
  | crossJoin
  | leftOuterJoin
  | rightOuterJoin
  | fullOuterJoin
deriving DecidableEq

/-- `SlotDescriptor`: only the declared nullability matters here. -/
structure SlotDesc where
  nullable : Bool
deriving DecidableEq

instance : Inhabited SlotDesc := ⟨⟨false⟩⟩

/-- `NLJoinProbeOperator::_is_left_join` (lines 131-133). -/
def isLeftJoin (op : JoinOp) : Bool :=
  op = JoinOp.leftOuterJoin || op = JoinOp.fullOuterJoin

/-- `NLJoinProbeOperator::_is_right_join` (lines 135-137). -/
def isRightJoin (op : JoinOp) : Bool :=
  op = JoinOp.rightOuterJoin || op = JoinOp.fullOuterJoin

/-- The immutable per-operator data: join kind, output slots, configured chunk
size (`state->chunk_size()`), the current probe chunk (installed by
`push_chunk`), the build chunks held by the shared `CrossJoinContext`, and the
two conjunct lists, each modelled as an optional fallible evaluator returning
a row-aligned boolean filter (`none` models an empty conjunct list). -/
structure NLJoinCfg where
  joinOp : JoinOp
  colTypes : List SlotDesc
  probeColumnCount : Nat
  chunkSize : Nat
  probeChunk : Chunk
  buildChunks : List Chunk
  joinConjuncts : Option (Chunk → Except Nat (List Bool))
  conjunctCtxs : Option (Chunk → Except Nat (List Bool))

/-- Number of output columns (`_col_types.size()`). -/
def NLJoinCfg.numCols (cfg : NLJoinCfg) : Nat := cfg.colTypes.length

/-- `_probe_chunk->num_rows()`. -/
def NLJoinCfg.numProbeRows (cfg : NLJoinCfg) : Nat := numRows cfg.probeChunk

/-- `CrossJoinContext::num_build_chunks()`. -/
def NLJoinCfg.numBuildChunks (cfg : NLJoinCfg) : Nat := cfg.buildChunks.length

/-- Modelled from the spec: `CrossJoinContext::num_build_rows()` (the context
is not under `src/`); per the spec's data model it is the total row count over
the ordered build batches. -/
def NLJoinCfg.numBuildRows (cfg : NLJoinCfg) : Nat :=
  (cfg.buildChunks.map numRows).sum

/-- Modelled from the spec: `CrossJoinContext::get_build_chunk_start(i)` (the
context is not under `src/`); per the spec it is the cumulative row-offset of
build batch `i`, i.e. the total row count of the preceding batches. -/
def buildChunkStart (cfg : NLJoinCfg) (k : Nat) : Nat :=
  ((cfg.buildChunks.take k).map numRows).sum

/-- The build chunk cached by `_move_build_chunk_index` (lines 143-153):
`some` of the chunk at the index, or `none` once the index reaches
`num_build_chunks()`. -/
def currBuildOpt (cfg : NLJoinCfg) (k : Nat) : Option Chunk :=
  cfg.buildChunks.get? k

/-- Mutable per-partition probe state: the probe-row window start and cursor,
the build-chunk index cursor, the per-current-probe-row matched flag, and the
local right-join match-flag vector `_self_build_match_flag`. -/
structure PSt where
  probeRowStart : Nat
  probeRowCurrent : Nat
  buildIndex : Nat
  probeRowMatched : Bool
  selfBuildMatchFlag : List Bool
deriving DecidableEq

/-- The cells appended to output column `i` for one (probe row `r`, build
chunk `b`) pair by `_permute_probe_row` (lines 265-281): a probe-side column
repeats the probe row's value `b.num_rows()` times
(`append_value_multiple_times`), a build-side column is copied wholesale
(`append`). -/
def pairColData (cfg : NLJoinCfg) (r : Nat) (b : Chunk) (i : Nat) : List Cell :=
  if i < cfg.probeColumnCount then
    List.replicate (numRows b) ((cfg.probeChunk.getD i default).data.getD r none)
  else
    (b.getD (i - cfg.probeColumnCount) default).data

/-- `NLJoinProbeOperator::_permute_probe_row` (lines 265-281). -/
def permuteProbeRow (cfg : NLJoinCfg) (r : Nat) (b : Chunk) (chunk : Chunk) : Chunk :=
  (List.range cfg.numCols).map fun i =>
    { chunk.getD i default with
      data := (chunk.getD i default).data ++ pairColData cfg r b i }

/-- The inner `while (_curr_build_chunk_index < _num_build_chunks())` loop of
`_permute_chunk` (lines 251-257), recursing over the build chunks not yet
visited (`rest = buildChunks.drop k`).  Returns the grown chunk, the new build
index, and whether the loop returned early because the chunk reached
`chunkSize`. -/
def permuteInner (cfg : NLJoinCfg) (r : Nat) :
    List Chunk → Nat → Chunk → Chunk × Nat × Bool
  | [], k, chunk => (chunk, k, false)
  | b :: bs, k, chunk =>
    if cfg.chunkSize ≤ numRows (permuteProbeRow cfg r b chunk) then
      (permuteProbeRow cfg r b chunk, k + 1, true)
    else permuteInner cfg r bs (k + 1) (permuteProbeRow cfg r b chunk)

/-- The outer `for (; _probe_row_current < _probe_chunk->num_rows(); ...)`
loop of `_permute_chunk` (lines 250-260), with fuel equal to the number of
probe rows left (the loop advances the row cursor by one per iteration).
State threaded: probe-row cursor `r`, build index `k`, per-row matched flag
`m` (reset to `false` when a probe row's build chunks are exhausted, line
258).  Returns the chunk and the final `(r, k, m)`. -/
def permuteOuter (cfg : NLJoinCfg) :
    Nat → Nat → Nat → Bool → Chunk → Chunk × Nat × Nat × Bool
  | 0, r, k, m, chunk => (chunk, r, k, m)
  | fuel + 1, r, k, m, chunk =>
    if (permuteInner cfg r (cfg.buildChunks.drop k) k chunk).2.2 then
      ((permuteInner cfg r (cfg.buildChunks.drop k) k chunk).1, r,
        (permuteInner cfg r (cfg.buildChunks.drop k) k chunk).2.1, m)
    else
      permuteOuter cfg fuel (r + 1) 0 false
        (permuteInner cfg r (cfg.buildChunks.drop k) k chunk).1

/-- `NLJoinProbeOperator::_init_output_chunk` (lines 155-177): a fresh chunk
whose column `i` is nullable iff the slot's declared type is nullable, or the
column is probe-side and the join is right/full-outer, or build-side and the
join is left/full-outer, or the corresponding column of the current probe /
current build chunk (when present) is nullable. -/
def initOutputChunk (cfg : NLJoinCfg) (pc : Option Chunk) (bc : Option Chunk) : Chunk :=
  (List.range cfg.numCols).map fun i =>
    let slot := cfg.colTypes.getD i default
    let isProbe := i < cfg.probeColumnCount
    let n1 := slot.nullable
    let n2 := n1 || ((isProbe && isRightJoin cfg.joinOp) || (!isProbe && isLeftJoin cfg.joinOp))
    let n3 := n2 || (match pc with
      | some c => isProbe && (c.getD i default).nullable
      | none => false)
    let n4 := n3 || (match bc with
      | some c => !isProbe && (c.getD (i - cfg.probeColumnCount) default).nullable
      | none => false)
    { nullable := n4, data := [] }

/-- `NLJoinProbeOperator::_permute_chunk` (lines 246-262): initialize an
output chunk, set `_probe_row_start` to the current cursor, and run the
resumable nested loop from the stored cursors. -/
def permuteChunkSt (cfg : NLJoinCfg) (st : PSt) : Chunk × PSt :=
  let init := initOutputChunk cfg (some cfg.probeChunk) (currBuildOpt cfg st.buildIndex)
  let res := permuteOuter cfg (cfg.numProbeRows - st.probeRowCurrent) st.probeRowCurrent
    st.buildIndex st.probeRowMatched init
  (res.1,
    { probeRowStart := st.probeRowCurrent
      probeRowCurrent := res.2.1
      buildIndex := res.2.2.1
      probeRowMatched := res.2.2.2
      selfBuildMatchFlag := st.selfBuildMatchFlag })

/-- The chunks produced by calling `_permute_chunk` repeatedly (as the
`pull_chunk` loop of lines 365-375 does) until the probe chunk is exhausted;
`fuel` bounds the number of calls. -/
def permuteAllChunks (cfg : NLJoinCfg) : Nat → PSt → List Chunk
  | 0, _ => []
  | fuel + 1, st =>
    if st.probeRowCurrent < cfg.numProbeRows then
      let res := permuteChunkSt cfg st
      res.1 :: permuteAllChunks cfg fuel res.2
    else []

/-- The cell data that the generator still owes column `i` when the cursors
stand at probe row `r` (with `fuel` rows left) and build index `k`: the pairs
of row `r` with the build chunks from `k` on, then all pairs of the later
rows. -/
def expectedFrom (cfg : NLJoinCfg) : Nat → Nat → Nat → Nat → List Cell
  | 0, _, _, _ => []
  | fuel + 1, r, k, i =>
    ((cfg.buildChunks.drop k).flatMap fun b => pairColData cfg r b i) ++
      expectedFrom cfg fuel (r + 1) 0 i

/-- The full cross product, column-wise: for every probe row in order, for
every build chunk in order, the pair's cells for column `i`. -/
def crossProductCol (cfg : NLJoinCfg) (i : Nat) : List Cell :=
  (List.range cfg.numProbeRows).flatMap fun r =>
    cfg.buildChunks.flatMap fun b => pairColData cfg r b i

/-- Column `i` of a list of chunks, concatenated. -/
def flattenCol (outs : List Chunk) (i : Nat) : List Cell :=
  outs.flatMap fun c => colDataAt c i

/-- `NLJoinProbeOperator::_init_build_match` (lines 381-388): size the local
match-flag vector up to `num_build_rows` (new entries zero) for right/full
outer joins once the build side is finished; otherwise leave it alone.
`resize(n, 0)` with `size < n` appends `n - size` zero entries. -/
def initBuildMatch (cfg : NLJoinCfg) (rightFinished : Bool) (flags : List Bool) : List Bool :=
  if isRightJoin cfg.joinOp && rightFinished && decide (flags.length < cfg.numBuildRows) then
    flags ++ List.replicate (cfg.numBuildRows - flags.length) false
  else flags

/-- `NLJoinProbeOperator::push_chunk` (lines 390-399): run `_init_build_match`
and reset the probe-row cursors, the build index and the per-row matched flag.
(The installed probe chunk itself is `cfg.probeChunk`.) -/
def pushChunk (cfg : NLJoinCfg) (rightFinished : Bool) (st : PSt) : PSt :=
  { probeRowStart := 0
    probeRowCurrent := 0
    buildIndex := 0
    probeRowMatched := false
    selfBuildMatchFlag := initBuildMatch cfg rightFinished st.selfBuildMatchFlag }

/-- The partition state right after the first `push_chunk` on a ready (build
side finished) operator. -/
def initialState (cfg : NLJoinCfg) : PSt :=
  pushChunk cfg true ⟨0, 0, 0, false, []⟩

/-- `SIMD::contain_nonzero(filter, start, len)`: some entry of
`filter[start, start+len)` is set. -/
def containNonzero (f : List Bool) (start len : Nat) : Bool :=
  ((f.drop start).take len).contains true

/-- `SIMD::contain_zero(flags)`: some entry is zero. -/
def containZero (f : List Bool) : Bool := f.contains false

/-- `SIMD::count_zero(flags + start, len)`: the number of zero entries in
`flags[start, start+len)`. -/
def countZeroRange (f : List Bool) (start len : Nat) : Nat :=
  ((f.drop start).take len).count false

/-- `ColumnHelper::or_two_filters(&dst, src)` (line 229): `dst[j] |= src[j]`
for every `j < dst.size()`. -/
def orTwoFiltersAll (dst src : List Bool) : List Bool :=
  (List.range dst.length).map fun j => dst.getD j false || src.getD j false

/-- `ColumnHelper::or_two_filters(count, dst + start, src)` (lines 234-235):
`dst[start + j] |= src[j]` for every `j < count`; other entries unchanged. -/
def orTwoFiltersRange (count start : Nat) (dst src : List Bool) : List Bool :=
  (List.range dst.length).map fun j =>
    if start ≤ j ∧ j < start + count then dst.getD j false || src.getD (j - start) false
    else dst.getD j false

/-- Row `j` of a chunk, across its columns. -/
def chunkRowAt (chunk : Chunk) (j : Nat) : List Cell :=
  chunk.map fun col => col.data.getD j none

/-- A row-wise evaluator built from a per-row Boolean predicate, used to
instantiate the abstract conjunct evaluators at concrete inputs: the filter
entry of row `j` is the predicate applied to that row. -/
def evalFilter (p : List Cell → Bool) (chunk : Chunk) : List Bool :=
  (List.range (numRows chunk)).map fun j => p (chunkRowAt chunk j)

/-- Keep the cells whose filter entry is set. -/
def keepWhere (f : List Bool) (xs : List Cell) : List Cell :=
  ((f.zip xs).filter fun bx => bx.1).map fun bx => bx.2

/-- Chunk compaction by a row filter: the contract of
`eval_conjuncts_and_in_filters` / `eval_conjuncts` (the evaluator physically
removes the non-matching rows from the chunk). -/
def filterChunk (chunk : Chunk) (f : List Bool) : Chunk :=
  chunk.map fun col => { col with data := keepWhere f col.data }

/-- The cells appended to output column `i` by `_permute_left_join` for
`n` probe rows starting at row `r` (lines 284-298): probe-side columns copy
the probe rows (`append(src, idx, n)`), build-side columns append nulls. -/
def leftRowColData (cfg : NLJoinCfg) (r n i : Nat) : List Cell :=
  if i < cfg.probeColumnCount then ((cfg.probeChunk.getD i default).data.drop r).take n
  else List.replicate n (none : Cell)

/-- `NLJoinProbeOperator::_permute_left_join` (lines 284-298). -/
def permuteLeftJoin (cfg : NLJoinCfg) (r n : Nat) (chunk : Chunk) : Chunk :=
  (List.range cfg.numCols).map fun i =>
    { chunk.getD i default with
      data := (chunk.getD i default).data ++ leftRowColData cfg r n i }

/-- The iteration count of a `for (i = 0; i < flen; i += nbr)` loop, `nbr > 0`
(the source diverges for `nbr = 0`; the model performs no iteration then). -/
def numFilterRuns (flen nbr : Nat) : Nat := (flen + nbr - 1) / nbr

/-- The first `n` iterations of the single-build-chunk left-join loop (lines
205-211): for each filter run `t` of length `num_build_rows` that has no set
entry, append probe row `probe_row_start + t` once via `_permute_left_join`. -/
def leftRunsAux (cfg : NLJoinCfg) (f : List Bool) (nbr rowStart : Nat) (n : Nat)
    (chunk : Chunk) : Chunk :=
  (List.range n).foldl
    (fun ch t =>
      if containNonzero f (t * nbr) nbr then ch else permuteLeftJoin cfg (rowStart + t) 1 ch)
    chunk

/-- The full single-build-chunk left-join loop (lines 205-211). -/
def leftSingleRuns (cfg : NLJoinCfg) (f : List Bool) (nbr rowStart : Nat) (chunk : Chunk) :
    Chunk :=
  leftRunsAux cfg f nbr rowStart (numFilterRuns f.length nbr) chunk

/-- The single-build-chunk right-join flag accumulation loop (lines 225-230):
OR each `num_build_rows`-sized run of the filter into the local flags at
offset zero. -/
def rightSingleAccum (cfg : NLJoinCfg) (flags : List Bool) (f : List Bool) : List Bool :=
  (List.range (numFilterRuns f.length cfg.numBuildRows)).foldl
    (fun fl t => orTwoFiltersAll fl (f.drop (t * cfg.numBuildRows))) flags

/-- `NLJoinProbeOperator::_probe` (lines 179-240).  With an empty join-conjunct
list it returns at once (line 180).  Otherwise the conjunct evaluator yields a
filter when the chunk is non-empty (errors propagate, line 186) and the chunk
is compacted; then the left/full-outer unmatched handling (empty /
single-batch / multi-batch build side, lines 195-219) and the right/full-outer
flag accumulation (lines 221-237) run.  In the multi-batch right-join arm the
current build chunk may be exhausted (`_curr_build_chunk == nullptr`, a
latent fault in the source); the model then ORs zero entries. -/
def probeStepE (cfg : NLJoinCfg) (st : PSt) (chunk : Chunk) : Except Nat (Chunk × PSt) :=
  match cfg.joinConjuncts with
  | none => Except.ok (chunk, st)
  | some ev =>
    match (if numRows chunk ≠ 0 then Except.map some (ev chunk) else Except.ok none) with
    | Except.error e => Except.error e
    | Except.ok fOpt =>
      let chunk1 := match fOpt with
        | some f => filterChunk chunk f
        | none => chunk
      let step2 : Chunk × PSt :=
        if isLeftJoin cfg.joinOp then
          if cfg.numBuildChunks = 0 then
            (permuteLeftJoin cfg 0 cfg.numProbeRows chunk1, st)
          else if cfg.numBuildChunks = 1 then
            (leftSingleRuns cfg (fOpt.getD []) cfg.numBuildRows st.probeRowStart chunk1, st)
          else
            (if !(st.probeRowMatched || (fOpt.getD []).contains true) &&
                decide (cfg.numBuildChunks ≤ st.buildIndex) then
              permuteLeftJoin cfg st.probeRowCurrent 1 chunk1
            else chunk1,
              { st with probeRowMatched := st.probeRowMatched || (fOpt.getD []).contains true })
        else (chunk1, st)
      let st3 :=
        if isRightJoin cfg.joinOp && fOpt.isSome then
          if cfg.numBuildChunks = 1 then
            { step2.2 with selfBuildMatchFlag :=
                rightSingleAccum cfg step2.2.selfBuildMatchFlag (fOpt.getD []) }
          else
            { step2.2 with selfBuildMatchFlag := orTwoFiltersRange (numRows ((currBuildOpt cfg step2.2.buildIndex).getD [])) (buildChunkStart cfg step2.2.buildIndex) step2.2.selfBuildMatchFlag (fOpt.getD []) }
        else step2.2
      Except.ok (step2.1, st3)

/-- `eval_conjuncts(_conjunct_ctxs, chunk, nullptr)` (lines 332 and 369): with
no residual conjuncts the chunk is untouched; otherwise the evaluator's filter
compacts it, or an error propagates. -/
def applyConjunctsE (resid : Option (Chunk → Except Nat (List Bool))) (chunk : Chunk) :
    Except Nat Chunk :=
  match resid with
  | none => Except.ok chunk
  | some ev =>
    match ev chunk with
    | Except.error e => Except.error e
    | Except.ok f => Except.ok (filterChunk chunk f)

/-- The probe-stage loop of `pull_chunk` (lines 365-375) as the sequence of
batches pushed to the output accumulator: while probe rows remain, permute a
chunk, apply `_probe`, apply the residual conjuncts, push the batch.  The
interleaved `_output_accumulator.pull()` calls hand buffered batches to the
caller but do not alter this sequence.  An error aborts the pull immediately,
leaving the pushed sequence as it was (`RETURN_IF_ERROR` before the push). -/
def probePhase (cfg : NLJoinCfg) : Nat → PSt → List Chunk → Except Nat PSt × List Chunk
  | 0, st, pushed => (Except.ok st, pushed)
  | fuel + 1, st, pushed =>
    if st.probeRowCurrent < cfg.numProbeRows then
      match probeStepE cfg (permuteChunkSt cfg st).2 (permuteChunkSt cfg st).1 with
      | Except.error e => (Except.error e, pushed)
      | Except.ok cs =>
        match applyConjunctsE cfg.conjunctCtxs cs.1 with
        | Except.error e => (Except.error e, pushed)
        | Except.ok chunk3 => probePhase cfg fuel cs.2 (pushed ++ [chunk3])
    else (Except.ok st, pushed)

/-- Modelled from the spec: the Output Accumulator (`_output_accumulator` is
not under `src/`): it buffers repeated small appends into a pending batch and
releases batches once they reach the desired size, or on finalize. -/
structure Acc where
  desired : Nat
  pending : Chunk
  ready : List Chunk

/-- Column-wise concatenation of two chunks with the same column list (an
empty pending buffer takes the incoming chunk as-is). -/
def chunkConcat (a b : Chunk) : Chunk :=
  if a.isEmpty then b
  else a.zipWith (fun x y => { x with data := x.data ++ y.data }) b

/-- Modelled from the spec: `_output_accumulator.push(chunk)` appends into the
pending batch and releases it once it reaches the desired size. -/
def accPush (acc : Acc) (c : Chunk) : Acc :=
  if acc.desired ≤ numRows (chunkConcat acc.pending c) then
    { acc with pending := [], ready := acc.ready ++ [chunkConcat acc.pending c] }
  else { acc with pending := chunkConcat acc.pending c }

/-- Modelled from the spec: `_output_accumulator.finalize()` releases the
pending batch. -/
def accFinalize (acc : Acc) : Acc :=
  if acc.pending.isEmpty then acc
  else { acc with pending := [], ready := acc.ready ++ [acc.pending] }

/-- Pushing a list of batches into a fresh accumulator, finalizing, then
pulling until exhaustion: the pulls return exactly the ready list in order. -/
def accOutputs (desired : Nat) (cs : List Chunk) : List Chunk :=
  (accFinalize (cs.foldl accPush { desired := desired, pending := [], ready := [] })).ready

/-- Column `i` of everything a drained accumulator still holds. -/
def Acc.flatCol (acc : Acc) (i : Nat) : List Cell :=
  flattenCol acc.ready i ++ colDataAt acc.pending i

/-- All batches the driver obtains by pulling until exhaustion over one probe
chunk: the accumulator drain of the batches pushed by the probe-stage loop. -/
def pullAllOutputs (cfg : NLJoinCfg) (fuel : Nat) : List Chunk :=
  accOutputs cfg.chunkSize (probePhase cfg fuel (initialState cfg) []).2

/-- Total row count over the batches the driver pulls. -/
def totalOutputRows (cfg : NLJoinCfg) (fuel : Nat) : Nat :=
  ((pullAllOutputs cfg fuel).map numRows).sum

/-- The local match-flag vector after a probe-phase run (empty on error). -/
def probePhaseFlags (cfg : NLJoinCfg) (fuel : Nat) : List Bool :=
  match (probePhase cfg fuel (initialState cfg) []).1 with
  | Except.ok st => st.selfBuildMatchFlag
  | Except.error _ => []

/-- Modelled from the spec: the shared match-flag vector of the Cross Join
Context after every partition has merged its local flags through
`finish_probe`: an all-false vector of `num_build_rows` entries OR-merged
with each partition's local vector. -/
def sharedBuildMatchFlag (cfg : NLJoinCfg) (locals : List (List Bool)) : List Bool :=
  locals.foldl orTwoFiltersAll (List.replicate cfg.numBuildRows false)

/-- The output chunk `_permute_right_join` builds for one build chunk `b`
whose flags start at `off` (lines 308-330): probe-side columns get
`count_zero` nulls, build-side columns copy exactly the rows whose shared
flag is unset. -/
def rightJoinChunkFor (cfg : NLJoinCfg) (pc : Option Chunk) (flag : List Bool) (off : Nat)
    (b : Chunk) : Chunk :=
  (List.range cfg.numCols).map fun i =>
    if i < cfg.probeColumnCount then
      { (initOutputChunk cfg pc (some b)).getD i default with
        data := List.replicate (countZeroRange flag off (numRows b)) (none : Cell) }
    else
      { (initOutputChunk cfg pc (some b)).getD i default with
        data := ((List.range (numRows b)).filter fun j => !(flag.getD (off + j) false)).map
          fun j => (b.getD (i - cfg.probeColumnCount) default).data.getD j none }

/-- The `for (chunk_index ...)` loop of `_permute_right_join` (lines 307-335),
recursing over the build chunks and carrying the running `match_flag_index`:
each iteration builds the unmatched-rows chunk, applies the residual
conjuncts (`eval_conjuncts(_conjunct_ctxs, ...)`, errors propagate) and
pushes it; the accumulated pair is (pushed chunks, residual evaluations). -/
def permuteRightJoinLoop (cfg : NLJoinCfg) (pc : Option Chunk) (flag : List Bool) :
    List Chunk → Nat → List Chunk × Nat → Except Nat (List Chunk × Nat)
  | [], _, acc => Except.ok acc
  | b :: bs, off, acc =>
    match applyConjunctsE cfg.conjunctCtxs (rightJoinChunkFor cfg pc flag off b) with
    | Except.error e => Except.error e
    | Except.ok chunk =>
      permuteRightJoinLoop cfg pc flag bs (off + numRows b) (acc.1 ++ [chunk], acc.2 + 1)

/-- `NLJoinProbeOperator::_permute_right_join` (lines 301-338): if no shared
flag is unset, return at once having pushed nothing and evaluated nothing;
otherwise sweep the build chunks. -/
def permuteRightJoin (cfg : NLJoinCfg) (pc : Option Chunk) (flag : List Bool) :
    Except Nat (List Chunk × Nat) :=
  if containZero flag then permuteRightJoinLoop cfg pc flag cfg.buildChunks 0 ([], 0)
  else Except.ok ([], 0)

/-- Total row count over the chunks `_permute_right_join` pushes (zero on
error). -/
def rightJoinPushedRows (cfg : NLJoinCfg) (pc : Option Chunk) (flag : List Bool) : Nat :=
  match permuteRightJoin cfg pc flag with
  | Except.ok res => (res.1.map numRows).sum
  | Except.error _ => 0

/-- The same configuration with another target batch size. -/
def setChunkSize (cfg : NLJoinCfg) (s : Nat) : NLJoinCfg := { cfg with chunkSize := s }

/-- The number of (probe row, build chunk) pairs the generator has not yet
consumed; the progress measure of the `pull_chunk` loop. -/
def pairsLeft (cfg : NLJoinCfg) (st : PSt) : Nat :=
  (cfg.numProbeRows - st.probeRowCurrent) * cfg.numBuildChunks - st.buildIndex

/-- The cell data the generator still owes column `i` from a state. -/
def futureCol (cfg : NLJoinCfg) (st : PSt) (i : Nat) : List Cell :=
  expectedFrom cfg (cfg.numProbeRows - st.probeRowCurrent) st.probeRowCurrent st.buildIndex i

/-- A join-conjunct evaluator that matches no row: the filter is all-false. -/
def evFalse : Chunk → Except Nat (List Bool) :=
  fun c => Except.ok (List.replicate (numRows c) false)

/-- A join-conjunct evaluator that fails with error code 7. -/
def evErr : Chunk → Except Nat (List Bool) := fun _ => Except.error 7

/-- Inner join, no conjuncts, one probe row, one build chunk of two rows, and
a configured batch size of 1: the generator overshoots the batch size. -/
def cfgA : NLJoinCfg :=
  { joinOp := JoinOp.innerJoin
    colTypes := [⟨false⟩, ⟨false⟩]
    probeColumnCount := 1
    chunkSize := 1
    probeChunk := [⟨false, [some 1]⟩]
    buildChunks := [[⟨false, [some 10, some 20]⟩]]
    joinConjuncts := none
    conjunctCtxs := none }

/-- Inner join, no conjuncts, two probe rows, two build chunks of one and two
rows, batch size 2. -/
def cfgB : NLJoinCfg :=
  { joinOp := JoinOp.innerJoin
    colTypes := [⟨false⟩, ⟨false⟩]
    probeColumnCount := 1
    chunkSize := 2
    probeChunk := [⟨false, [some 1, some 2]⟩]
    buildChunks := [[⟨false, [some 10]⟩], [⟨false, [some 20, some 30]⟩]]
    joinConjuncts := none
    conjunctCtxs := none }

/-- Left-outer join over two single-row build chunks with an always-false
join predicate and a batch size large enough that one `_permute_chunk` call
covers both build chunks of the only probe row. -/
def cfgC : NLJoinCfg :=
  { joinOp := JoinOp.leftOuterJoin
    colTypes := [⟨false⟩, ⟨false⟩]
    probeColumnCount := 1
    chunkSize := 10
    probeChunk := [⟨false, [some 1]⟩]
    buildChunks := [[⟨false, [some 10]⟩], [⟨false, [some 20]⟩]]
    joinConjuncts := some evFalse
    conjunctCtxs := none }

/-- Right-outer join with an empty join-conjunct list (a pure cross join on
the probe path), one probe row and one single-row build chunk. -/
def cfgD : NLJoinCfg :=
  { joinOp := JoinOp.rightOuterJoin
    colTypes := [⟨false⟩, ⟨false⟩]
    probeColumnCount := 1
    chunkSize := 4096
    probeChunk := [⟨false, [some 1]⟩]
    buildChunks := [[⟨false, [some 10]⟩]]
    joinConjuncts := none
    conjunctCtxs := none }

/-- Left-outer join, one build chunk of one row, always-false join predicate. -/
def cfgE : NLJoinCfg :=
  { joinOp := JoinOp.leftOuterJoin
    colTypes := [⟨false⟩, ⟨false⟩]
    probeColumnCount := 1
    chunkSize := 4096
    probeChunk := [⟨false, [some 1]⟩]
    buildChunks := [[⟨false, [some 9]⟩]]
    joinConjuncts := some evFalse
    conjunctCtxs := none }

/-- Inner join whose join-conjunct evaluator fails with error code 7. -/
def cfgF : NLJoinCfg :=
  { joinOp := JoinOp.innerJoin
    colTypes := [⟨false⟩, ⟨false⟩]
    probeColumnCount := 1
    chunkSize := 4096
    probeChunk := [⟨false, [some 1]⟩]
    buildChunks := [[⟨false, [some 10]⟩]]
    joinConjuncts := some evErr
    conjunctCtxs := none }

/-- Full-outer join with a nullable declared slot, for the nullability rule. -/
def cfgG : NLJoinCfg :=
  { joinOp := JoinOp.fullOuterJoin
    colTypes := [⟨true⟩, ⟨false⟩, ⟨false⟩]
    probeColumnCount := 2
    chunkSize := 4096
    probeChunk := [⟨false, [some 1]⟩, ⟨true, [some 2]⟩]
    buildChunks := [[⟨false, [some 10]⟩]]
    joinConjuncts := none
    conjunctCtxs := none }

/-- Right-outer join over one two-row build chunk, for the right-join
emitter and the flag-monotonicity witnesses. -/
def cfgH : NLJoinCfg :=
  { joinOp := JoinOp.rightOuterJoin
    colTypes := [⟨false⟩, ⟨false⟩]
    probeColumnCount := 1
    chunkSize := 4096
    probeChunk := [⟨false, [some 1]⟩]
    buildChunks := [[⟨false, [some 10, some 20]⟩]]
    joinConjuncts := none
    conjunctCtxs := none }

theorem getD_range_map {α : Type} [Inhabited α] (f : Nat → α) {n i : Nat} (h : i < n) :
    ((List.range n).map f).getD i default = f i := by
  rw [List.getD_eq_getElem?_getD, List.getElem?_map, List.getElem?_range h]
  rfl

theorem length_permuteProbeRow (cfg : NLJoinCfg) (r : Nat) (b : Chunk) (chunk : Chunk) :
    (permuteProbeRow cfg r b chunk).length = cfg.numCols := by
  simp [permuteProbeRow]

theorem colDataAt_permuteProbeRow (cfg : NLJoinCfg) (r : Nat) (b : Chunk) (chunk : Chunk)
    {i : Nat} (hi : i < cfg.numCols) :
    colDataAt (permuteProbeRow cfg r b chunk) i = colDataAt chunk i ++ pairColData cfg r b i := by
  unfold colDataAt permuteProbeRow
  rw [getD_range_map _ hi]

theorem length_permuteLeftJoin (cfg : NLJoinCfg) (r n : Nat) (chunk : Chunk) :
    (permuteLeftJoin cfg r n chunk).length = cfg.numCols := by
  simp [permuteLeftJoin]

theorem colDataAt_permuteLeftJoin (cfg : NLJoinCfg) (r n : Nat) (chunk : Chunk)
    {i : Nat} (hi : i < cfg.numCols) :
    colDataAt (permuteLeftJoin cfg r n chunk) i = colDataAt chunk i ++ leftRowColData cfg r n i := by
  unfold colDataAt permuteLeftJoin
  rw [getD_range_map _ hi]

theorem flatMap_take_drop {α β : Type} (m : Nat) (l : List α) (f : α → List β) :
    l.flatMap f = (l.take m).flatMap f ++ (l.drop m).flatMap f := by
  rw [← List.flatMap_append, List.take_append_drop]

theorem flattenCol_nil (i : Nat) : flattenCol [] i = [] := rfl

theorem flattenCol_cons (c : Chunk) (cs : List Chunk) (i : Nat) :
    flattenCol (c :: cs) i = colDataAt c i ++ flattenCol cs i := by
  simp [flattenCol]

theorem flattenCol_append (l1 l2 : List Chunk) (i : Nat) :
    flattenCol (l1 ++ l2) i = flattenCol l1 i ++ flattenCol l2 i := by
  simp [flattenCol]

theorem length_filterChunk (chunk : Chunk) (f : List Bool) :
    (filterChunk chunk f).length = chunk.length := by
  simp [filterChunk]

theorem colDataAt_filterChunk (chunk : Chunk) (f : List Bool) (i : Nat) :
    colDataAt (filterChunk chunk f) i = keepWhere f (colDataAt chunk i) := by
  unfold colDataAt filterChunk
  by_cases hi : i < chunk.length
  · rw [List.getD_eq_getElem?_getD, List.getElem?_map, List.getElem?_eq_getElem hi]
    rw [List.getD_eq_getElem?_getD, List.getElem?_eq_getElem hi]
    rfl
  · rw [List.getD_eq_getElem?_getD, List.getElem?_map,
      List.getElem?_eq_none (by simpa using Nat.le_of_not_lt hi),
      List.getD_eq_getElem?_getD,
      List.getElem?_eq_none (by simpa using Nat.le_of_not_lt hi)]
    show (default : Column).data = _
    have hd : (default : Column).data = [] := rfl
    simp [keepWhere, hd]

theorem contains_false_of_all_true (l : List Bool) (h : ∀ b ∈ l, b = true) :
    l.contains false = false := by
  induction l with
  | nil => rfl
  | cons a l ih =>
    have ha : a = true := h a (List.mem_cons_self a l)
    simp only [List.contains_cons, ha]
    simpa using ih fun b hb => h b (List.mem_cons_of_mem a hb)

theorem permuteInner_spec (cfg : NLJoinCfg) (r : Nat) :
    ∀ (rest : List Chunk) (k : Nat) (chunk c2 : Chunk) (k2 : Nat) (e : Bool),
      chunk.length = cfg.numCols →
      permuteInner cfg r rest k chunk = (c2, k2, e) →
      ∃ m, m ≤ rest.length ∧ k2 = k + m ∧ (e = false → m = rest.length) ∧
        (e = true → 1 ≤ m) ∧ c2.length = cfg.numCols ∧
        ∀ i, i < cfg.numCols →
          colDataAt c2 i =
            colDataAt chunk i ++ (rest.take m).flatMap fun b => pairColData cfg r b i := by
  intro rest
  induction rest with
  | nil =>
    intro k chunk c2 k2 e hlen h
    simp only [permuteInner, Prod.mk.injEq] at h
    obtain ⟨rfl, rfl, rfl⟩ := h
    exact ⟨0, Nat.le_refl 0, rfl, fun _ => rfl, by simp, hlen, fun i _ => by simp⟩
  | cons b bs ih =>
    intro k chunk c2 k2 e hlen h
    simp only [permuteInner] at h
    split at h
    · simp only [Prod.mk.injEq] at h
      obtain ⟨rfl, rfl, rfl⟩ := h
      refine ⟨1, by simp, rfl, by simp, fun _ => Nat.le_refl 1,
        length_permuteProbeRow cfg r b chunk, ?_⟩
      intro i hi
      rw [colDataAt_permuteProbeRow cfg r b chunk hi]
      simp
    · obtain ⟨m, hm, hk, hf, ht, hlen2, hcol⟩ :=
        ih (k + 1) (permuteProbeRow cfg r b chunk) c2 k2 e
          (length_permuteProbeRow cfg r b chunk) h
      refine ⟨m + 1, by simpa using Nat.succ_le_succ hm, by omega, ?_,
        fun _ => Nat.succ_le_succ (Nat.zero_le m), hlen2, ?_⟩
      · intro he
        rw [hf he]
        simp
      · intro i hi
        rw [hcol i hi, colDataAt_permuteProbeRow cfg r b chunk hi]
        simp [List.take_succ_cons, List.append_assoc]

theorem permuteOuter_spec (cfg : NLJoinCfg) :
    ∀ (fuel r k : Nat) (m : Bool) (chunk c2 : Chunk) (r2 k2 : Nat) (m2 : Bool),
      chunk.length = cfg.numCols →
      permuteOuter cfg fuel r k m chunk = (c2, r2, k2, m2) →
      c2.length = cfg.numCols ∧ r ≤ r2 ∧ r2 - r ≤ fuel ∧
      (k ≤ cfg.numBuildChunks → k2 ≤ cfg.numBuildChunks) ∧
      ((r2 = r + fuel ∧ (fuel = 0 → k2 = k) ∧ (fuel ≠ 0 → k2 = 0)) ∨
        (r2 < r + fuel ∧ ((r2 = r ∧ k < k2) ∨ (r < r2 ∧ 1 ≤ k2)))) ∧
      ∀ i, i < cfg.numCols →
        colDataAt c2 i ++ expectedFrom cfg (fuel - (r2 - r)) r2 k2 i =
          colDataAt chunk i ++ expectedFrom cfg fuel r k i := by
  intro fuel
  induction fuel with
  | zero =>
    intro r k m chunk c2 r2 k2 m2 hlen h
    simp only [permuteOuter, Prod.mk.injEq] at h
    obtain ⟨rfl, rfl, rfl, rfl⟩ := h
    refine ⟨hlen, Nat.le_refl r, by omega, fun hk => hk,
      Or.inl ⟨by omega, fun _ => rfl, fun h0 => absurd rfl h0⟩, ?_⟩
    intro i hi
    simp
  | succ fuel ih =>
    intro r k m chunk c2 r2 k2 m2 hlen h
    simp only [permuteOuter] at h
    rcases hpi : permuteInner cfg r (cfg.buildChunks.drop k) k chunk with ⟨c1, k1, e1⟩
    rw [hpi] at h
    obtain ⟨mm, hmle, hk1, hef, het, hlen1, hcol1⟩ :=
      permuteInner_spec cfg r _ k chunk c1 k1 e1 hlen hpi
    have hdroplen : (cfg.buildChunks.drop k).length = cfg.numBuildChunks - k := by
      simp [NLJoinCfg.numBuildChunks]
    cases e1 with
    | true =>
      simp only [if_pos] at h
      simp only [Prod.mk.injEq] at h
      obtain ⟨rfl, rfl, rfl, rfl⟩ := h
      have hmm1 : 1 ≤ mm := het rfl
      refine ⟨hlen1, Nat.le_refl r, by omega, ?_, ?_, ?_⟩
      · intro hkc
        omega
      · exact Or.inr ⟨by omega, Or.inl ⟨rfl, by omega⟩⟩
      · intro i hi
        rw [hcol1 i hi]
        have hsub : fuel + 1 - (r - r) = fuel + 1 := by omega
        rw [hsub]
        have hk1' : k1 = k + mm := hk1
        subst hk1'
        simp only [expectedFrom]
        have hdd : cfg.buildChunks.drop (k + mm) =
            List.drop mm (cfg.buildChunks.drop k) := by
          rw [List.drop_drop]
        rw [hdd, flatMap_take_drop mm (cfg.buildChunks.drop k)
          (fun b => pairColData cfg r b i)]
        simp [List.append_assoc]
    | false =>
      simp only [if_neg, Bool.false_eq_true, not_false_iff] at h
      have hmm : mm = (cfg.buildChunks.drop k).length := hef rfl
      obtain ⟨hlen2, hr2, hrfuel, hkC, hprog, hcol2⟩ :=
        ih (r + 1) 0 false c1 c2 r2 k2 m2 hlen1 h
      refine ⟨hlen2, by omega, by omega, fun _ => hkC (Nat.zero_le _), ?_, ?_⟩
      · rcases hprog with ⟨h1, h2, h3⟩ | ⟨h1, hsub⟩
        · refine Or.inl ⟨by omega, fun h0 => absurd h0 (by omega), fun _ => ?_⟩
          rcases Nat.eq_zero_or_pos fuel with h4 | h4
          · rw [h2 h4]
          · exact h3 (by omega)
        · refine Or.inr ⟨by omega, ?_⟩
          rcases hsub with ⟨h2, h3⟩ | ⟨h2, h3⟩
          · exact Or.inr ⟨by omega, h3⟩
          · exact Or.inr ⟨by omega, h3⟩
      · intro i hi
        have hs : fuel + 1 - (r2 - r) = fuel - (r2 - (r + 1)) := by omega
        rw [hs]
        rw [hcol2 i hi]
        have hc1 : colDataAt c1 i =
            colDataAt chunk i ++ (cfg.buildChunks.drop k).flatMap
              fun b => pairColData cfg r b i := by
          rw [hcol1 i hi, hmm, List.take_length]
        rw [hc1]
        simp only [expectedFrom]
        simp [List.append_assoc]

theorem length_initOutputChunk (cfg : NLJoinCfg) (pc bc : Option Chunk) :
    (initOutputChunk cfg pc bc).length = cfg.numCols := by
  simp [initOutputChunk]

theorem colDataAt_nil (i : Nat) : colDataAt [] i = [] := rfl

theorem colDataAt_initOutputChunk (cfg : NLJoinCfg) (pc bc : Option Chunk) (i : Nat)
    (hi : i < cfg.numCols) :
    colDataAt (initOutputChunk cfg pc bc) i = [] := by
  unfold colDataAt initOutputChunk
  rw [getD_range_map _ hi]

theorem length_permuteChunkSt (cfg : NLJoinCfg) (st : PSt) :
    (permuteChunkSt cfg st).1.length = cfg.numCols := by
  unfold permuteChunkSt
  rcases hpo : permuteOuter cfg (cfg.numProbeRows - st.probeRowCurrent) st.probeRowCurrent
    st.buildIndex st.probeRowMatched
    (initOutputChunk cfg (some cfg.probeChunk) (currBuildOpt cfg st.buildIndex)) with
    ⟨c2, r2, k2, m2⟩
  obtain ⟨hlen, _⟩ := permuteOuter_spec cfg _ _ _ _ _ c2 r2 k2 m2
    (length_initOutputChunk cfg _ _) hpo
  simp only [hpo]
  exact hlen

theorem permuteChunkSt_spec (cfg : NLJoinCfg) (st : PSt)
    (hk : st.buildIndex ≤ cfg.numBuildChunks) (hr : st.probeRowCurrent < cfg.numProbeRows) :
    (permuteChunkSt cfg st).2.buildIndex ≤ cfg.numBuildChunks ∧
    ((permuteChunkSt cfg st).2.probeRowCurrent = cfg.numProbeRows ∨
      ((permuteChunkSt cfg st).2.probeRowCurrent < cfg.numProbeRows ∧
        pairsLeft cfg (permuteChunkSt cfg st).2 < pairsLeft cfg st)) ∧
    ∀ i, i < cfg.numCols →
      colDataAt (permuteChunkSt cfg st).1 i ++ futureCol cfg (permuteChunkSt cfg st).2 i =
        futureCol cfg st i := by
  unfold permuteChunkSt
  rcases hpo : permuteOuter cfg (cfg.numProbeRows - st.probeRowCurrent) st.probeRowCurrent
    st.buildIndex st.probeRowMatched
    (initOutputChunk cfg (some cfg.probeChunk) (currBuildOpt cfg st.buildIndex)) with
    ⟨c2, r2, k2, m2⟩
  obtain ⟨hlen, hrle, hrfuel, hkC, hprog, hcol⟩ := permuteOuter_spec cfg _ _ _ _ _ c2 r2 k2 m2
    (length_initOutputChunk cfg _ _) hpo
  simp only [hpo]
  have hr2n : r2 ≤ cfg.numProbeRows := by omega
  refine ⟨hkC hk, ?_, ?_⟩
  · rcases hprog with ⟨h1, _, _⟩ | ⟨h1, hsub⟩
    · exact Or.inl (by omega)
    · have hr2lt : r2 < cfg.numProbeRows := by omega
      refine Or.inr ⟨hr2lt, ?_⟩
      unfold pairsLeft
      simp only
      have hCle : cfg.numBuildChunks ≤ (cfg.numProbeRows - st.probeRowCurrent) *
          cfg.numBuildChunks :=
        Nat.le_mul_of_pos_left cfg.numBuildChunks (by omega)
      rcases hsub with ⟨h2, h3⟩ | ⟨h2, h3⟩
      · subst h2
        have hk2C := hkC hk
        omega
      · have hk2C := hkC hk
        have hstep : (cfg.numProbeRows - r2) + 1 ≤ cfg.numProbeRows - st.probeRowCurrent := by
          omega
        have hmul : ((cfg.numProbeRows - r2) + 1) * cfg.numBuildChunks ≤
            (cfg.numProbeRows - st.probeRowCurrent) * cfg.numBuildChunks :=
          Nat.mul_le_mul_right cfg.numBuildChunks hstep
        rw [Nat.succ_mul] at hmul
        have hCpos : 1 ≤ cfg.numBuildChunks := by omega
        have hC2 : cfg.numBuildChunks ≤ (cfg.numProbeRows - r2) * cfg.numBuildChunks :=
          Nat.le_mul_of_pos_left cfg.numBuildChunks (by omega)
        omega
  · intro i hi
    have h2 := hcol i hi
    rw [colDataAt_initOutputChunk cfg _ _ i hi, List.nil_append] at h2
    unfold futureCol
    simp only
    have hs : cfg.numProbeRows - st.probeRowCurrent - (r2 - st.probeRowCurrent) =
        cfg.numProbeRows - r2 := by omega
    rw [hs] at h2
    exact h2

theorem permuteAllChunks_stop (cfg : NLJoinCfg) (fuel : Nat) (st : PSt)
    (h : ¬ st.probeRowCurrent < cfg.numProbeRows) : permuteAllChunks cfg fuel st = [] := by
  cases fuel <;> simp [permuteAllChunks, h]

theorem permuteAll_flattenCol (cfg : NLJoinCfg) :
    ∀ (fuel : Nat) (st : PSt), st.buildIndex ≤ cfg.numBuildChunks →
      pairsLeft cfg st < fuel →
      ∀ i, i < cfg.numCols →
        flattenCol (permuteAllChunks cfg fuel st) i = futureCol cfg st i := by
  intro fuel
  induction fuel with
  | zero =>
    intro st _ h
    exact absurd h (Nat.not_lt_zero _)
  | succ fuel ih =>
    intro st hk hfuel i hi
    by_cases hr : st.probeRowCurrent < cfg.numProbeRows
    · simp only [permuteAllChunks, if_pos hr]
      rw [flattenCol_cons]
      obtain ⟨hk2, hprog, hcol⟩ := permuteChunkSt_spec cfg st hk hr
      rcases hprog with hdone | ⟨hlt, hdec⟩
      · rw [permuteAllChunks_stop cfg fuel _ (by omega), flattenCol_nil, List.append_nil]
        have hfut : futureCol cfg (permuteChunkSt cfg st).2 i = [] := by
          unfold futureCol
          rw [show cfg.numProbeRows - (permuteChunkSt cfg st).2.probeRowCurrent = 0 by omega]
          rfl
        have h2 := hcol i hi
        rw [hfut, List.append_nil] at h2
        exact h2
      · rw [ih (permuteChunkSt cfg st).2 hk2 (by omega) i hi]
        exact hcol i hi
    · rw [permuteAllChunks_stop cfg _ st hr, flattenCol_nil]
      unfold futureCol
      rw [show cfg.numProbeRows - st.probeRowCurrent = 0 by omega]
      rfl

theorem expectedFrom_eq_range (cfg : NLJoinCfg) :
    ∀ (fuel r i : Nat),
      expectedFrom cfg fuel r 0 i =
        (List.range' r fuel).flatMap fun r' =>
          cfg.buildChunks.flatMap fun b => pairColData cfg r' b i := by
  intro fuel
  induction fuel with
  | zero =>
    intro r i
    rfl
  | succ fuel ih =>
    intro r i
    rw [List.range'_succ]
    simp only [expectedFrom, List.flatMap_cons, List.drop_zero]
    rw [ih]

theorem futureCol_initial (cfg : NLJoinCfg) (i : Nat) :
    futureCol cfg (initialState cfg) i = crossProductCol cfg i := by
  unfold futureCol initialState pushChunk crossProductCol
  simp only [Nat.sub_zero]
  rw [expectedFrom_eq_range, List.range_eq_range']

theorem colDataAt_cons_succ (c : Column) (cs : Chunk) (i : Nat) :
    colDataAt (c :: cs) (i + 1) = colDataAt cs i := by
  unfold colDataAt
  rw [List.getD_cons_succ]

theorem colDataAt_chunkConcat_eq (a : Chunk) :
    ∀ (b : Chunk), a.length = b.length → ∀ i,
      colDataAt (chunkConcat a b) i = colDataAt a i ++ colDataAt b i := by
  induction a with
  | nil =>
    intro b hlen i
    have hb : b = [] := by
      cases b with
      | nil => rfl
      | cons y ys => simp at hlen
    subst hb
    rfl
  | cons x xs ih =>
    intro b hlen i
    cases b with
    | nil => simp at hlen
    | cons y ys =>
      have hxy : xs.length = ys.length := by simpa using hlen
      have hcc : chunkConcat (x :: xs) (y :: ys) =
          { x with data := x.data ++ y.data } :: chunkConcat xs ys := by
        unfold chunkConcat
        simp only [List.isEmpty_cons, List.zipWith_cons_cons, Bool.false_eq_true, if_false]
        congr 1
        by_cases hxe : xs = []
        · subst hxe
          have hye : ys = [] := by simpa using hxy.symm
          subst hye
          simp
        · rw [if_neg (by simpa using hxe)]
      rw [hcc]
      cases i with
      | zero =>
        unfold colDataAt
        simp [List.getD_cons_zero]
      | succ i =>
        rw [colDataAt_cons_succ, colDataAt_cons_succ, colDataAt_cons_succ]
        exact ih ys hxy i

theorem colDataAt_chunkConcat (a b : Chunk) (h : a = [] ∨ a.length = b.length) (i : Nat) :
    colDataAt (chunkConcat a b) i = colDataAt a i ++ colDataAt b i := by
  rcases h with rfl | hlen
  · rfl
  · exact colDataAt_chunkConcat_eq a b hlen i

theorem length_chunkConcat (a b : Chunk) (h : a = [] ∨ a.length = b.length) :
    (chunkConcat a b).length = b.length := by
  rcases h with rfl | hlen
  · rfl
  · unfold chunkConcat
    by_cases he : a.isEmpty
    · have : a = [] := by simpa [List.isEmpty_iff] using he
      subst this
      simp at hlen
      simp [hlen]
    · simp [he, hlen]

theorem accPush_spec (n : Nat) (acc : Acc) (c : Chunk) (hc : c.length = n)
    (hp : acc.pending = [] ∨ acc.pending.length = n) :
    ((accPush acc c).pending = [] ∨ (accPush acc c).pending.length = n) ∧
    (∀ d ∈ (accPush acc c).ready, d ∈ acc.ready ∨ d.length = n) ∧
    ∀ i, (accPush acc c).flatCol i = acc.flatCol i ++ colDataAt c i := by
  have hpc : acc.pending = [] ∨ acc.pending.length = c.length := by
    rcases hp with h | h
    · exact Or.inl h
    · exact Or.inr (h.trans hc.symm)
  have hccl : (chunkConcat acc.pending c).length = n := by
    rw [length_chunkConcat _ _ hpc, hc]
  unfold accPush
  split
  · refine ⟨Or.inl rfl, ?_, ?_⟩
    · intro d hd
      simp only at hd
      rcases List.mem_append.mp hd with h | h
      · exact Or.inl h
      · right
        simp only [List.mem_singleton] at h
        subst h
        exact hccl
    · intro i
      unfold Acc.flatCol
      simp only [flattenCol_append, flattenCol_cons, flattenCol_nil, colDataAt_nil]
      rw [colDataAt_chunkConcat _ _ hpc]
      simp [List.append_assoc]
  · refine ⟨Or.inr hccl, fun d hd => Or.inl hd, ?_⟩
    intro i
    unfold Acc.flatCol
    simp only
    rw [colDataAt_chunkConcat _ _ hpc]
    simp [List.append_assoc]

theorem accPushAll_spec (n : Nat) :
    ∀ (cs : List Chunk) (acc : Acc), (∀ c ∈ cs, c.length = n) →
      (acc.pending = [] ∨ acc.pending.length = n) →
      (∀ c ∈ acc.ready, c.length = n) →
      (((cs.foldl accPush acc).pending = [] ∨ (cs.foldl accPush acc).pending.length = n) ∧
        (∀ c ∈ (cs.foldl accPush acc).ready, c.length = n) ∧
        ∀ i, (cs.foldl accPush acc).flatCol i = acc.flatCol i ++ flattenCol cs i) := by
  intro cs
  induction cs with
  | nil =>
    intro acc _ hp hr
    exact ⟨hp, hr, fun i => by simp [flattenCol_nil]⟩
  | cons c cs ih =>
    intro acc hcs hp hr
    have hc : c.length = n := hcs c (List.mem_cons_self c cs)
    obtain ⟨hp1, hkeep, hflat1⟩ := accPush_spec n acc c hc hp
    have hr1 : ∀ d ∈ (accPush acc c).ready, d.length = n := fun d hd =>
      (hkeep d hd).elim (fun h => hr d h) id
    obtain ⟨hp2, hr2, hflat2⟩ :=
      ih (accPush acc c) (fun d hd => hcs d (List.mem_cons_of_mem _ hd)) hp1 hr1
    refine ⟨hp2, hr2, fun i => ?_⟩
    rw [List.foldl_cons, hflat2 i, hflat1 i, flattenCol_cons, List.append_assoc]

theorem accOutputs_spec (n : Nat) (d : Nat) (cs : List Chunk)
    (hcs : ∀ c ∈ cs, c.length = n) :
    (∀ c ∈ accOutputs d cs, c.length = n) ∧
      ∀ i, flattenCol (accOutputs d cs) i = flattenCol cs i := by
  obtain ⟨hp, hr, hflat⟩ := accPushAll_spec n cs ⟨d, [], []⟩ hcs (Or.inl rfl)
    (by intro c h; simp at h)
  have hinit : ∀ i, Acc.flatCol ⟨d, [], []⟩ i = [] := by
    intro i
    unfold Acc.flatCol
    simp [flattenCol_nil, colDataAt_nil]
  have hready0 : ({ desired := d, pending := [], ready := [] } : Acc).ready = [] := rfl
  have hpend0 : ({ desired := d, pending := [], ready := [] } : Acc).pending = [] := rfl
  unfold accOutputs accFinalize
  split
  · rename_i hpe
    refine ⟨hr, fun i => ?_⟩
    have hpnil : (cs.foldl accPush ⟨d, [], []⟩).pending = [] := by
      simpa [List.isEmpty_iff] using hpe
    have h2 := hflat i
    unfold Acc.flatCol at h2
    rw [hpnil, colDataAt_nil, List.append_nil, hready0] at h2
    simpa [flattenCol_nil] using h2
  · rename_i hpe
    have hplen : (cs.foldl accPush ⟨d, [], []⟩).pending.length = n := by
      rcases hp with h | h
      · exact absurd h (by simpa [List.isEmpty_iff] using hpe)
      · exact h
    constructor
    · intro c hcm
      simp only at hcm
      rcases List.mem_append.mp hcm with h | h
      · exact hr c h
      · simp only [List.mem_singleton] at h
        subst h
        exact hplen
    · intro i
      simp only [flattenCol_append, flattenCol_cons, flattenCol_nil, List.append_nil]
      have h2 := hflat i
      unfold Acc.flatCol at h2
      rw [hready0] at h2
      simpa [flattenCol_nil, colDataAt_nil] using h2

theorem mem_permuteAllChunks_length (cfg : NLJoinCfg) :
    ∀ (fuel : Nat) (st : PSt) (c : Chunk), c ∈ permuteAllChunks cfg fuel st →
      c.length = cfg.numCols := by
  intro fuel
  induction fuel with
  | zero =>
    intro st c h
    simp [permuteAllChunks] at h
  | succ fuel ih =>
    intro st c h
    by_cases hr : st.probeRowCurrent < cfg.numProbeRows
    · simp only [permuteAllChunks, if_pos hr] at h
      rcases List.mem_cons.mp h with rfl | h2
      · exact length_permuteChunkSt cfg st
      · exact ih _ c h2
    · simp [permuteAllChunks, hr] at h

theorem probePhase_pushed_no_conjuncts (cfg : NLJoinCfg) (hj : cfg.joinConjuncts = none)
    (hc : cfg.conjunctCtxs = none) :
    ∀ (fuel : Nat) (st : PSt) (pushed : List Chunk),
      (probePhase cfg fuel st pushed).2 = pushed ++ permuteAllChunks cfg fuel st := by
  intro fuel
  induction fuel with
  | zero =>
    intro st pushed
    simp [probePhase, permuteAllChunks]
  | succ fuel ih =>
    intro st pushed
    by_cases hr : st.probeRowCurrent < cfg.numProbeRows
    · have hps : probeStepE cfg (permuteChunkSt cfg st).2 (permuteChunkSt cfg st).1 =
          Except.ok ((permuteChunkSt cfg st).1, (permuteChunkSt cfg st).2) := by
        unfold probeStepE
        rw [hj]
      have hac : applyConjunctsE cfg.conjunctCtxs (permuteChunkSt cfg st).1 =
          Except.ok (permuteChunkSt cfg st).1 := by
        unfold applyConjunctsE
        rw [hc]
      simp only [probePhase, if_pos hr, hps, hac]
      rw [ih]
      simp only [permuteAllChunks, if_pos hr]
      simp [List.append_assoc]
    · simp [probePhase, hr, permuteAllChunks]

theorem numRows_eq_length_colDataAt_zero (c : Chunk) (hne : c.length ≠ 0) :
    numRows c = (colDataAt c 0).length := by
  cases c with
  | nil => simp at hne
  | cons col cols => rfl

theorem sum_numRows_eq_flatten_zero (n : Nat) (hn : 0 < n) :
    ∀ (outs : List Chunk), (∀ c ∈ outs, c.length = n) →
      (outs.map numRows).sum = (flattenCol outs 0).length := by
  intro outs
  induction outs with
  | nil =>
    intro _
    simp [flattenCol_nil]
  | cons c cs ih =>
    intro h
    have hc : c.length = n := h c (List.mem_cons_self c cs)
    rw [List.map_cons, List.sum_cons, flattenCol_cons, List.length_append,
      ih (fun d hd => h d (List.mem_cons_of_mem _ hd)),
      numRows_eq_length_colDataAt_zero c (by omega)]

theorem length_pairColData_zero (cfg : NLJoinCfg) (r : Nat) (b : Chunk) :
    (pairColData cfg r b 0).length = numRows b := by
  unfold pairColData
  split
  · simp
  · cases b with
    | nil => rfl
    | cons col cols =>
      simp [Nat.zero_sub, List.getD_cons_zero, numRows]

theorem length_crossProductCol_zero (cfg : NLJoinCfg) :
    (crossProductCol cfg 0).length = cfg.numProbeRows * cfg.numBuildRows := by
  unfold crossProductCol
  rw [List.length_flatMap]
  have h1 : (List.range cfg.numProbeRows).map
      (List.length ∘ fun r => cfg.buildChunks.flatMap fun b => pairColData cfg r b 0) =
      (List.range cfg.numProbeRows).map fun _ => cfg.numBuildRows := by
    apply List.map_eq_map_iff.mpr
    intro r _
    simp only [Function.comp]
    rw [List.length_flatMap]
    unfold NLJoinCfg.numBuildRows
    congr 1
    apply List.map_eq_map_iff.mpr
    intro b _
    simp only [Function.comp]
    exact length_pairColData_zero cfg r b
  rw [h1, List.map_const', List.sum_replicate]
  simp [smul_eq_mul]

/-- C1: Inner join completeness: with no join predicates and no residual
conjuncts, pulling output until exhaustion over one probe batch yields, per
column, exactly the cross product (for every probe row in order, for every
build batch in order, `build.num_rows` output rows whose probe-side columns
repeat that probe row's value and whose build-side columns copy the build
batch wholesale), and in total `|P| * total_build_rows` rows. -/
theorem inner_join_cross_product_completeness (cfg : NLJoinCfg)
    (_hop : cfg.joinOp = JoinOp.innerJoin)
    (hjoin : cfg.joinConjuncts = none) (hres : cfg.conjunctCtxs = none)
    (hcols : 0 < cfg.numCols) (fuel : Nat)
    (hfuel : cfg.numProbeRows * cfg.numBuildChunks < fuel) :
    (∀ i, i < cfg.numCols →
        flattenCol (pullAllOutputs cfg fuel) i =
          (List.range cfg.numProbeRows).flatMap fun r =>
            cfg.buildChunks.flatMap fun b => pairColData cfg r b i) ∧
    totalOutputRows cfg fuel = cfg.numProbeRows * cfg.numBuildRows := by
  have hpairs : pairsLeft cfg (initialState cfg) = cfg.numProbeRows * cfg.numBuildChunks := by
    unfold pairsLeft initialState pushChunk
    simp
  have hperm : ∀ i, i < cfg.numCols →
      flattenCol (permuteAllChunks cfg fuel (initialState cfg)) i = crossProductCol cfg i := by
    intro i hi
    rw [permuteAll_flattenCol cfg fuel (initialState cfg) (Nat.zero_le _) (by omega) i hi,
      futureCol_initial]
  have hpush : (probePhase cfg fuel (initialState cfg) []).2 =
      permuteAllChunks cfg fuel (initialState cfg) := by
    rw [probePhase_pushed_no_conjuncts cfg hjoin hres fuel (initialState cfg) []]
    simp
  have hlens : ∀ c ∈ (probePhase cfg fuel (initialState cfg) []).2, c.length = cfg.numCols := by
    rw [hpush]
    exact fun c hc => mem_permuteAllChunks_length cfg fuel (initialState cfg) c hc
  obtain ⟨houtlen, hconsv⟩ := accOutputs_spec cfg.numCols cfg.chunkSize _ hlens
  constructor
  · intro i hi
    unfold pullAllOutputs
    rw [hconsv i, hpush, hperm i hi]
    unfold crossProductCol
    rfl
  · unfold totalOutputRows
    rw [sum_numRows_eq_flatten_zero cfg.numCols hcols (pullAllOutputs cfg fuel) houtlen]
    unfold pullAllOutputs
    rw [hconsv 0, hpush, hperm 0 hcols, length_crossProductCol_zero]

/-- Witness for C1 at the concrete configuration `cfgB`. -/
theorem inner_join_cross_product_completeness_witness :
    (∀ i, i < cfgB.numCols →
        flattenCol (pullAllOutputs cfgB 10) i =
          (List.range cfgB.numProbeRows).flatMap fun r =>
            cfgB.buildChunks.flatMap fun b => pairColData cfgB r b i) ∧
    totalOutputRows cfgB 10 = cfgB.numProbeRows * cfgB.numBuildRows :=
  inner_join_cross_product_completeness cfgB rfl rfl rfl (by decide) 10 (by decide)

theorem numRows_permuteProbeRow (cfg : NLJoinCfg) (r : Nat) (b : Chunk) (chunk : Chunk)
    (hlen : chunk.length = cfg.numCols) (hcols : 0 < cfg.numCols) :
    numRows (permuteProbeRow cfg r b chunk) = numRows chunk + numRows b := by
  obtain ⟨m, hm⟩ : ∃ m, cfg.numCols = m + 1 := ⟨cfg.numCols - 1, by omega⟩
  unfold permuteProbeRow
  rw [hm, List.range_succ_eq_map, List.map_cons]
  show ((chunk.getD 0 default).data ++ pairColData cfg r b 0).length = _
  rw [List.length_append, length_pairColData_zero]
  cases chunk with
  | nil =>
    rw [hm] at hlen
    simp at hlen
  | cons col cols => rfl

theorem permuteInner_numRows_bound (cfg : NLJoinCfg) (r : Nat) (M : Nat)
    (hcols : 0 < cfg.numCols) :
    ∀ (rest : List Chunk) (k : Nat) (chunk : Chunk), chunk.length = cfg.numCols →
      (∀ b ∈ rest, numRows b ≤ M) → numRows chunk ≤ cfg.chunkSize - 1 →
      numRows (permuteInner cfg r rest k chunk).1 ≤ cfg.chunkSize - 1 + M ∧
      ((permuteInner cfg r rest k chunk).2.2 = false →
        numRows (permuteInner cfg r rest k chunk).1 ≤ cfg.chunkSize - 1) := by
  intro rest
  induction rest with
  | nil =>
    intro k chunk _ _ hsz
    refine ⟨?_, fun _ => by simpa [permuteInner] using hsz⟩
    simp only [permuteInner]
    omega
  | cons b bs ih =>
    intro k chunk hlen hM hsz
    have hb : numRows b ≤ M := hM b (List.mem_cons_self b bs)
    have hnr : numRows (permuteProbeRow cfg r b chunk) = numRows chunk + numRows b :=
      numRows_permuteProbeRow cfg r b chunk hlen hcols
    simp only [permuteInner]
    split
    · refine ⟨by simp only; omega, fun h => by simp at h⟩
    · rename_i hlt
      have hle : numRows (permuteProbeRow cfg r b chunk) ≤ cfg.chunkSize - 1 := by omega
      exact ih (k + 1) (permuteProbeRow cfg r b chunk)
        (length_permuteProbeRow cfg r b chunk)
        (fun d hd => hM d (List.mem_cons_of_mem _ hd)) hle

theorem permuteOuter_numRows_bound (cfg : NLJoinCfg) (M : Nat) (hcols : 0 < cfg.numCols)
    (hM : ∀ b ∈ cfg.buildChunks, numRows b ≤ M) :
    ∀ (fuel r k : Nat) (m : Bool) (chunk : Chunk), chunk.length = cfg.numCols →
      numRows chunk ≤ cfg.chunkSize - 1 →
      numRows (permuteOuter cfg fuel r k m chunk).1 ≤ cfg.chunkSize - 1 + M := by
  intro fuel
  induction fuel with
  | zero =>
    intro r k m chunk _ hsz
    simp only [permuteOuter]
    omega
  | succ fuel ih =>
    intro r k m chunk hlen hsz
    have hMdrop : ∀ b ∈ cfg.buildChunks.drop k, numRows b ≤ M := fun b hb =>
      hM b (List.mem_of_mem_drop hb)
    obtain ⟨hball, hbfalse⟩ :=
      permuteInner_numRows_bound cfg r M hcols (cfg.buildChunks.drop k) k chunk hlen hMdrop hsz
    rcases hpi : permuteInner cfg r (cfg.buildChunks.drop k) k chunk with ⟨c1, k1, e1⟩
    rw [hpi] at hball hbfalse
    obtain ⟨_, _, _, _, _, hlen1, _⟩ := permuteInner_spec cfg r _ k chunk c1 k1 e1 hlen hpi
    simp only [permuteOuter, hpi]
    cases e1 with
    | true => simpa using hball
    | false =>
      simp only [Bool.false_eq_true, if_false]
      exact ih (r + 1) 0 false c1 hlen1 (by simpa using hbfalse rfl)

/-- C2 counterexample: at `cfgA` (target batch size 1, one probe row, one
two-row build chunk) `_permute_chunk` returns a chunk of 2 rows, exceeding
the configured batch size. -/
theorem output_batch_cap_counterexample :
    ¬ numRows (permuteChunkSt cfgA (initialState cfgA)).1 ≤ cfgA.chunkSize := by decide

/-- C2 (amended): a chunk returned by `_permute_chunk` can exceed the
configured batch size by up to one build chunk, because the size check runs
only after a whole build chunk has been appended: its row count is at most
`chunk_size - 1` plus the largest build-chunk row count. -/
theorem output_batch_cap_amended (cfg : NLJoinCfg) (M : Nat)
    (hM : ∀ b ∈ cfg.buildChunks, numRows b ≤ M) (st : PSt) (hcols : 0 < cfg.numCols) :
    numRows (permuteChunkSt cfg st).1 ≤ cfg.chunkSize - 1 + M := by
  unfold permuteChunkSt
  simp only
  apply permuteOuter_numRows_bound cfg M hcols hM
  · exact length_initOutputChunk cfg _ _
  · rw [numRows_eq_length_colDataAt_zero _ (by rw [length_initOutputChunk]; omega),
      colDataAt_initOutputChunk cfg _ _ 0 hcols]
    simp

/-- Witness for the amended C2 at `cfgA` (largest build chunk has 2 rows, so
the bound is `1 - 1 + 2 = 2`). -/
theorem output_batch_cap_amended_witness :
    numRows (permuteChunkSt cfgA (initialState cfgA)).1 ≤ cfgA.chunkSize - 1 + 2 :=
  output_batch_cap_amended cfgA 2 (by decide) (initialState cfgA) (by decide)

theorem expectedFrom_setChunkSize (cfg : NLJoinCfg) (s : Nat) :
    ∀ (fuel r k i : Nat),
      expectedFrom (setChunkSize cfg s) fuel r k i = expectedFrom cfg fuel r k i := by
  intro fuel
  induction fuel with
  | zero =>
    intro r k i
    rfl
  | succ fuel ih =>
    intro r k i
    simp only [expectedFrom, ih]
    rfl

/-- C3: Resumability: the total column-wise output of the cross-product
generator, over however many suspended-and-resumed `_permute_chunk` calls the
batch size forces, does not depend on the configured batch size: a run with a
small batch size (many resumptions) and a run with an unbounded batch size (a
single call) produce the same rows in the same order, so no (probe row, build
row) pair is skipped or duplicated across suspend/resume boundaries. -/
theorem resumability_batch_size_invariance (cfg : NLJoinCfg) (s1 s2 : Nat)
    (fuel1 fuel2 : Nat)
    (h1 : cfg.numProbeRows * cfg.numBuildChunks < fuel1)
    (h2 : cfg.numProbeRows * cfg.numBuildChunks < fuel2)
    (i : Nat) (hi : i < cfg.numCols) :
    flattenCol
        (permuteAllChunks (setChunkSize cfg s1) fuel1 (initialState (setChunkSize cfg s1))) i =
      flattenCol
        (permuteAllChunks (setChunkSize cfg s2) fuel2 (initialState (setChunkSize cfg s2))) i := by
  have key : ∀ (s : Nat) (fuel : Nat), cfg.numProbeRows * cfg.numBuildChunks < fuel →
      flattenCol
          (permuteAllChunks (setChunkSize cfg s) fuel (initialState (setChunkSize cfg s))) i =
        expectedFrom cfg cfg.numProbeRows 0 0 i := by
    intro s fuel hf
    have hpairs : pairsLeft (setChunkSize cfg s) (initialState (setChunkSize cfg s)) =
        cfg.numProbeRows * cfg.numBuildChunks := by
      unfold pairsLeft initialState pushChunk
      simp [setChunkSize, NLJoinCfg.numProbeRows, NLJoinCfg.numBuildChunks]
    rw [permuteAll_flattenCol (setChunkSize cfg s) fuel _ (Nat.zero_le _) (by omega) i hi]
    unfold futureCol initialState pushChunk
    simp only [Nat.sub_zero]
    exact expectedFrom_setChunkSize cfg s _ 0 0 i
  rw [key s1 fuel1 h1, key s2 fuel2 h2]

/-- Witness for C3 at `cfgB` with batch sizes 1 and 100. -/
theorem resumability_batch_size_invariance_witness :
    flattenCol (permuteAllChunks (setChunkSize cfgB 1) 10 (initialState (setChunkSize cfgB 1))) 0 =
      flattenCol
        (permuteAllChunks (setChunkSize cfgB 100) 10 (initialState (setChunkSize cfgB 100))) 0 :=
  resumability_batch_size_invariance cfgB 1 100 10 10 (by decide) (by decide) 0 (by decide)

/-- C4 (failing input): with no join predicates on a right-outer join, `_probe`
returns before any match-flag bookkeeping (line 180), so after probing the
probe batch against the build batch the local match-flag vector is still
all-unset; `_permute_right_join` then treats the build row as unmatched and
pushes one spurious row (null probe side), although the row did appear in the
cross product.  The claim (all-true filter semantics marking every build row
matched) does not hold on the code. -/
theorem no_predicate_right_join_spurious_unmatched :
    probePhaseFlags cfgD 2 = [false] ∧
    rightJoinPushedRows cfgD (some cfgD.probeChunk)
      (sharedBuildMatchFlag cfgD [probePhaseFlags cfgD 2]) = 1 := by decide

/-- C5 (failing input): a left-outer join over two single-row build chunks
with an always-false predicate and a large batch size: one `_permute_chunk`
call consumes both build chunks and resets the build cursor to 0, so in
`_probe` the `probe_row_finished` test (`_curr_build_chunk_index >=
_num_build_chunks()`, line 214) is false and the unmatched probe row is never
emitted — the operator produces 0 output rows although left-outer totality
requires the probe row to appear once with null build columns. -/
theorem multi_batch_left_join_drops_unmatched_row :
    totalOutputRows cfgC 3 = 0 := by decide

/-- C7: Error atomicity of pull: in the `pull_chunk` loop (lines 365-374),
if the join-predicate evaluation inside `_probe` fails, or the residual
conjunct evaluation fails, the error is returned immediately and the batch
being processed is never pushed to the output accumulator (the pushed
sequence is exactly what it was when the iteration began). -/
theorem pull_error_atomicity (cfg : NLJoinCfg) (fuel : Nat) (st : PSt)
    (pushed : List Chunk) (hr : st.probeRowCurrent < cfg.numProbeRows) :
    (∀ e, probeStepE cfg (permuteChunkSt cfg st).2 (permuteChunkSt cfg st).1 =
        Except.error e →
      probePhase cfg (fuel + 1) st pushed = (Except.error e, pushed)) ∧
    (∀ e c2 st3,
        probeStepE cfg (permuteChunkSt cfg st).2 (permuteChunkSt cfg st).1 =
          Except.ok (c2, st3) →
        applyConjunctsE cfg.conjunctCtxs c2 = Except.error e →
        probePhase cfg (fuel + 1) st pushed = (Except.error e, pushed)) := by
  constructor
  · intro e he
    simp only [probePhase, if_pos hr, he]
  · intro e c2 st3 hok herr
    simp only [probePhase, if_pos hr, hok, herr]

/-- Witness for C7 at `cfgF`, whose join-conjunct evaluator fails with error
code 7: the pull returns the error and nothing was pushed. -/
theorem pull_error_atomicity_witness :
    probePhase cfgF 1 (initialState cfgF) [] = (Except.error 7, []) :=
  (pull_error_atomicity cfgF 0 (initialState cfgF) [] (by decide)).1 7 rfl

theorem leftRunsAux_spec (cfg : NLJoinCfg) (f : List Bool) (nbr rowStart : Nat) :
    ∀ (n : Nat) (chunk : Chunk), chunk.length = cfg.numCols →
      (leftRunsAux cfg f nbr rowStart n chunk).length = cfg.numCols ∧
      ∀ i, i < cfg.numCols →
        colDataAt (leftRunsAux cfg f nbr rowStart n chunk) i =
          colDataAt chunk i ++
            (((List.range n).filter fun t => !containNonzero f (t * nbr) nbr).flatMap
              fun t => leftRowColData cfg (rowStart + t) 1 i) := by
  intro n
  induction n with
  | zero =>
    intro chunk hlen
    exact ⟨by simpa [leftRunsAux] using hlen, fun i hi => by simp [leftRunsAux]⟩
  | succ n ih =>
    intro chunk hlen
    have hstep : leftRunsAux cfg f nbr rowStart (n + 1) chunk =
        (if containNonzero f (n * nbr) nbr then leftRunsAux cfg f nbr rowStart n chunk
          else permuteLeftJoin cfg (rowStart + n) 1 (leftRunsAux cfg f nbr rowStart n chunk)) := by
      unfold leftRunsAux
      rw [List.range_succ, List.foldl_append]
      simp
    obtain ⟨ihlen, ihcol⟩ := ih chunk hlen
    rw [hstep]
    by_cases hc : containNonzero f (n * nbr) nbr
    · rw [if_pos hc]
      refine ⟨ihlen, fun i hi => ?_⟩
      rw [ihcol i hi, List.range_succ, List.filter_append]
      simp [hc]
    · rw [if_neg hc]
      refine ⟨length_permuteLeftJoin cfg _ _ _, fun i hi => ?_⟩
      rw [colDataAt_permuteLeftJoin cfg _ _ _ hi, ihcol i hi, List.range_succ,
        List.filter_append]
      simp [hc, List.append_assoc]

/-- C6: Single-batch left-outer unmatched detection: with a left/full-outer
join and exactly one build batch, `_probe` partitions the join filter into
contiguous runs of `num_build_rows` entries, run `t` corresponding to probe
row `probe_row_start + t`; the resulting chunk is the compacted matched rows
followed by, for each run with no set entry in order, exactly one appended
row carrying that probe row's probe-side values and null build-side columns. -/
theorem left_single_batch_unmatched_emission (cfg : NLJoinCfg) (st : PSt) (chunk : Chunk)
    (ev : Chunk → Except Nat (List Bool)) (f : List Bool)
    (hleft : isLeftJoin cfg.joinOp = true)
    (hone : cfg.numBuildChunks = 1)
    (hconj : cfg.joinConjuncts = some ev)
    (hne : numRows chunk ≠ 0)
    (hev : ev chunk = Except.ok f)
    (hlen : chunk.length = cfg.numCols) :
    ∃ out st2, probeStepE cfg st chunk = Except.ok (out, st2) ∧
      ∀ i, i < cfg.numCols →
        colDataAt out i =
          keepWhere f (colDataAt chunk i) ++
            (((List.range (numFilterRuns f.length cfg.numBuildRows)).filter
                fun t => !containNonzero f (t * cfg.numBuildRows) cfg.numBuildRows).flatMap
              fun t => leftRowColData cfg (st.probeRowStart + t) 1 i) := by
  have hfo : (if numRows chunk ≠ 0 then Except.map some (ev chunk) else Except.ok none) =
      Except.ok (some f) := by
    rw [if_pos hne, hev]
    rfl
  simp only [probeStepE, hconj]
  rw [hfo]
  simp only [hleft, hone, if_true, Option.getD_some, Option.isSome_some]
  norm_num
  intro i hi
  obtain ⟨_, hcol⟩ := leftRunsAux_spec cfg f cfg.numBuildRows st.probeRowStart
    (numFilterRuns f.length cfg.numBuildRows) (filterChunk chunk f)
    (by rw [length_filterChunk, hlen])
  unfold leftSingleRuns at *
  rw [hcol i hi, colDataAt_filterChunk]

/-- Witness for C6 at `cfgE` on a one-pair permuted chunk with an all-false
filter: the unmatched probe row is appended once. -/
theorem left_single_batch_unmatched_emission_witness :
    ∃ out st2,
      probeStepE cfgE (initialState cfgE) [⟨false, [some 1]⟩, ⟨false, [some 9]⟩] =
        Except.ok (out, st2) ∧
      ∀ i, i < cfgE.numCols →
        colDataAt out i =
          keepWhere [false] (colDataAt [⟨false, [some 1]⟩, ⟨false, [some 9]⟩] i) ++
            (((List.range (numFilterRuns (List.length [false]) cfgE.numBuildRows)).filter
                fun t => !containNonzero [false] (t * cfgE.numBuildRows) cfgE.numBuildRows).flatMap
              fun t =>
                leftRowColData cfgE ((initialState cfgE).probeRowStart + t) 1 i) :=
  left_single_batch_unmatched_emission cfgE (initialState cfgE)
    [⟨false, [some 1]⟩, ⟨false, [some 9]⟩] evFalse [false]
    (by decide) rfl rfl (by decide) rfl rfl

/-- C8: Output-column nullability rule: a column of a chunk created by
`_init_output_chunk` is nullable iff its declared slot type is nullable, or
it is probe-side and the join is right/full-outer, or build-side and the join
is left/full-outer, or the corresponding column of the current probe (resp.
build) chunk, when one is held, is nullable. -/
theorem output_column_nullability (cfg : NLJoinCfg) (pc bc : Option Chunk) (i : Nat)
    (hi : i < cfg.numCols) :
    ((initOutputChunk cfg pc bc).getD i default).nullable = true ↔
      ((cfg.colTypes.getD i default).nullable = true ∨
        (i < cfg.probeColumnCount ∧ isRightJoin cfg.joinOp = true) ∨
        (¬ i < cfg.probeColumnCount ∧ isLeftJoin cfg.joinOp = true) ∨
        (i < cfg.probeColumnCount ∧ ∃ c, pc = some c ∧ (c.getD i default).nullable = true) ∨
        (¬ i < cfg.probeColumnCount ∧ ∃ c, bc = some c ∧
          (c.getD (i - cfg.probeColumnCount) default).nullable = true)) := by
  unfold initOutputChunk
  rw [getD_range_map _ hi]
  cases pc <;> cases bc <;> by_cases hp : i < cfg.probeColumnCount <;>
    simp [hp, Bool.or_eq_true, Bool.and_eq_true, decide_eq_true_eq] <;>
    tauto

/-- Witness for C8 at `cfgG`, column 2 (a build-side column of a full-outer
join with a non-nullable declared type). -/
theorem output_column_nullability_witness :
    ((initOutputChunk cfgG (some cfgG.probeChunk) (some [⟨false, [some 10]⟩])).getD 2
        default).nullable = true ↔
      ((cfgG.colTypes.getD 2 default).nullable = true ∨
        (2 < cfgG.probeColumnCount ∧ isRightJoin cfgG.joinOp = true) ∨
        (¬ 2 < cfgG.probeColumnCount ∧ isLeftJoin cfgG.joinOp = true) ∨
        (2 < cfgG.probeColumnCount ∧ ∃ c, some cfgG.probeChunk = some c ∧
          (c.getD 2 default).nullable = true) ∨
        (¬ 2 < cfgG.probeColumnCount ∧ ∃ c, (some [⟨false, [some 10]⟩] : Option Chunk) = some c ∧
          (c.getD (2 - cfgG.probeColumnCount) default).nullable = true)) :=
  output_column_nullability cfgG (some cfgG.probeChunk) (some [⟨false, [some 10]⟩]) 2 (by decide)

/-- C9: Implicit — fully-matched right join emits nothing: if every entry of
the shared build match-flag vector is set, `_permute_right_join` returns
success at once (the `contain_zero` guard, line 303), pushing no chunk to the
output accumulator and performing no residual-conjunct evaluation. -/
theorem fully_matched_right_join_emits_nothing (cfg : NLJoinCfg) (pc : Option Chunk)
    (flag : List Bool) (hall : ∀ b ∈ flag, b = true) :
    permuteRightJoin cfg pc flag = Except.ok ([], 0) := by
  unfold permuteRightJoin
  rw [show containZero flag = false from contains_false_of_all_true flag hall]
  simp

/-- Witness for C9 at `cfgH` with both shared flags set. -/
theorem fully_matched_right_join_emits_nothing_witness :
    permuteRightJoin cfgH (some cfgH.probeChunk) [true, true] = Except.ok ([], 0) :=
  fully_matched_right_join_emits_nothing cfgH (some cfgH.probeChunk) [true, true] (by decide)

theorem getD_range_map_any {α : Type} (f : Nat → α) (d : α) {n i : Nat} (h : i < n) :
    ((List.range n).map f).getD i d = f i := by
  rw [List.getD_eq_getElem?_getD, List.getElem?_map, List.getElem?_range h]
  rfl

/-- C10: Implicit — local match flags are monotone across probe batches:
`push_chunk` (via `_init_build_match`) never clears or shrinks the local
build-match-flag vector — every existing entry is preserved, the length never
decreases, and any new entries are zero — and the `or_two_filters` merges
used by `_probe` never reset a set flag. -/
theorem local_match_flags_monotone (cfg : NLJoinCfg) (rf : Bool) (st : PSt) :
    (∀ j, j < st.selfBuildMatchFlag.length →
        (pushChunk cfg rf st).selfBuildMatchFlag.getD j false =
          st.selfBuildMatchFlag.getD j false) ∧
    st.selfBuildMatchFlag.length ≤ (pushChunk cfg rf st).selfBuildMatchFlag.length ∧
    (∀ j, st.selfBuildMatchFlag.length ≤ j →
        (pushChunk cfg rf st).selfBuildMatchFlag.getD j false = false) ∧
    (∀ (src : List Bool) (j : Nat), st.selfBuildMatchFlag.getD j false = true →
        (orTwoFiltersAll st.selfBuildMatchFlag src).getD j false = true) ∧
    (∀ (cnt start : Nat) (src : List Bool) (j : Nat),
        st.selfBuildMatchFlag.getD j false = true →
        (orTwoFiltersRange cnt start st.selfBuildMatchFlag src).getD j false = true) := by
  have hjlt : ∀ (j : Nat) (l : List Bool), l.getD j false = true → j < l.length := by
    intro j l h
    by_contra hge
    rw [List.getD_eq_getElem?_getD, List.getElem?_eq_none (by omega)] at h
    simp at h
  refine ⟨?_, ?_, ?_, ?_, ?_⟩
  · intro j hj
    unfold pushChunk initBuildMatch
    simp only
    split
    · rw [List.getD_eq_getElem?_getD, List.getElem?_append, if_pos hj,
        ← List.getD_eq_getElem?_getD]
    · rfl
  · unfold pushChunk initBuildMatch
    simp only
    split
    · simp
    · exact Nat.le_refl _
  · intro j hj
    unfold pushChunk initBuildMatch
    simp only
    split
    · rw [List.getD_eq_getElem?_getD, List.getElem?_append_right hj]
      by_cases hlt : j - st.selfBuildMatchFlag.length <
          (List.replicate (cfg.numBuildRows - st.selfBuildMatchFlag.length) false).length
      · rw [List.getElem?_eq_getElem hlt]
        simp
      · rw [List.getElem?_eq_none (by omega)]
        rfl
    · rw [List.getD_eq_getElem?_getD, List.getElem?_eq_none (by omega)]
      rfl
  · intro src j h
    have hj : j < st.selfBuildMatchFlag.length := hjlt j _ h
    unfold orTwoFiltersAll
    rw [getD_range_map_any _ _ hj, h]
    rfl
  · intro cnt start src j h
    have hj : j < st.selfBuildMatchFlag.length := hjlt j _ h
    unfold orTwoFiltersRange
    rw [getD_range_map_any _ _ hj]
    split
    · rw [h]
      rfl
    · exact h

/-- Witness for C10 at `cfgH` with a one-entry set flag vector. -/
theorem local_match_flags_monotone_witness :
    (pushChunk cfgH true ⟨0, 0, 0, false, [true]⟩).selfBuildMatchFlag.getD 0 false = true ∧
    (orTwoFiltersAll [true] [false]).getD 0 false = true ∧
    (orTwoFiltersRange 1 0 [true] [false]).getD 0 false = true := by
  have h := local_match_flags_monotone cfgH true ⟨0, 0, 0, false, [true]⟩
  refine ⟨?_, h.2.2.2.1 [false] 0 (by decide), h.2.2.2.2 1 0 [false] 0 (by decide)⟩
  have h1 := h.1 0 (by decide)
  rw [h1]
  decide

end NLJoin
